import Mathlib

/-!
Verification of the stream-source quality-selection core of a command-line
streaming client written in Rust (`src/main.rs`, `src/models.rs`, `src/api.rs`).

Strings are modelled as `List Char`.  Rust `u32`/`u64` parsing and range checks
are modelled with `Nat`/`Int` and explicit bounds (`2^32`, `2^64`).  The regex
patterns of `extract_resolution` / `extract_resolution_from_url` are embedded as
explicit character scans implementing the leftmost-match semantics of the
`regex` crate for these concrete patterns.  JSON deserialization (serde) is
modelled over an explicit JSON value type, with `Except` for fallible decoding.
-/

abbrev Str := List Char

/-- Numeric value of a run of ASCII decimal digits (as parsed by Rust
`str::parse`, most significant digit first). -/
def digitsToNat (l : Str) : Nat :=
  l.foldl (fun acc c => acc * 10 + (c.toNat - '0'.toNat)) 0

/-- Rust `str::parse::<u32>()` on a candidate digit string: succeeds on a
non-empty all-digit string whose value fits in 32 bits. -/
def parseU32 (l : Str) : Option Nat :=
  if l.isEmpty then none
  else if l.all Char.isDigit then
    if digitsToNat l < 4294967296 then some (digitsToNat l) else none
  else none

/-- Scan for the regex `(\d+)p` (leftmost match) and return the captured digit
run: the first maximal digit run that is immediately followed by `p`.
Embeds the pattern used by `extract_resolution` in `src/main.rs`. -/
def scanPCapture : Str → Option Str
  | [] => none
  | c :: rest =>
    if c.isDigit then
      match rest.dropWhile Char.isDigit with
      | d :: _ =>
        if d = 'p' then some (c :: rest.takeWhile Char.isDigit)
        else scanPCapture rest
      | [] => scanPCapture rest
    else scanPCapture rest

/-- Scan for the regex `r\d+_(\d+)` (leftmost match) and return the second
digit group, as in the first URL pattern of `extract_resolution_from_url`. -/
def scanRCapture : Str → Option Str
  | [] => none
  | c :: rest =>
    if c = 'r' then
      match rest.takeWhile Char.isDigit, rest.dropWhile Char.isDigit with
      | _ :: _, d :: rest2 =>
        if d = '_' then
          match rest2.takeWhile Char.isDigit with
          | [] => scanRCapture rest
          | e :: es => some (e :: es)
        else scanRCapture rest
      | _, _ => scanRCapture rest
    else scanRCapture rest

/-- Trailing delimiters accepted by the third URL pattern. -/
def isDelim (c : Char) : Bool := c = '/' || c = '_' || c = '.'

/-- Attempt to match `(\d{3,4})(/|_|\.)` right after a `/`, greedy on the digit
count as the regex engine is. -/
def slashAt : Str → Option Str
  | d1 :: d2 :: d3 :: d4 :: d5 :: _ =>
    if d1.isDigit && d2.isDigit && d3.isDigit && d4.isDigit && isDelim d5 then
      some [d1, d2, d3, d4]
    else if d1.isDigit && d2.isDigit && d3.isDigit && isDelim d4 then
      some [d1, d2, d3]
    else none
  | [d1, d2, d3, d4] =>
    if d1.isDigit && d2.isDigit && d3.isDigit && isDelim d4 then
      some [d1, d2, d3]
    else none
  | _ => none

/-- Scan for the regex `/(\d{3,4})(/|_|\.)` (leftmost match), the third URL
pattern of `extract_resolution_from_url`. -/
def scanSlashCapture : Str → Option Str
  | [] => none
  | c :: rest =>
    if c = '/' then
      match slashAt rest with
      | some cap => some cap
      | none => scanSlashCapture rest
    else scanSlashCapture rest

/-- `extract_resolution` from `src/main.rs`: the single pattern `(\d+)p`,
captured group parsed as `u32`. -/
def extract_resolution (label : Str) : Option Nat :=
  (scanPCapture label).bind parseU32

/-- `extract_resolution_from_url` from `src/main.rs`.  The source builds the
pattern array `[r\d+_(\d+), (\d+)p, /(\d{3,4})(/|_|\.)]` and returns the first
pattern whose leftmost match has a capture that parses as `u32`; a parse
failure falls through to the next pattern. -/
def extract_resolution_from_url (url : Str) : Option Nat :=
  match (scanRCapture url).bind parseU32 with
  | some n => some n
  | none =>
    match (scanPCapture url).bind parseU32 with
    | some n => some n
    | none => (scanSlashCapture url).bind parseU32

/-- `models::Source`: one stream variant as deserialized from the session
response (strings as `List Char`, `u64` as `Nat`). -/
structure Source where
  type_ : Str
  url : Str
  label : Option Str
  source_type : Str
  cdn : Option Str
  token : Option Str
  pop : Option Str
  asset_key : Option Str
  expiration_time : Option Nat
deriving DecidableEq

/-- The label predicate of Attempt 1 in `select_best_stream`:
`s.label.as_ref().map_or(false, |lbl| !lbl.is_empty() && lbl.contains(pref))`. -/
def labelMatch (pref : Str) (s : Source) : Bool :=
  match s.label with
  | some lbl => !lbl.isEmpty && decide (pref <:+: lbl)
  | none => false

/-- `s.source_type == "primary" || s.type_ == "primary"`, the primary test used
by Attempt 3 of `select_best_stream` and the filters of the quality searches. -/
def isPrimary (s : Source) : Bool :=
  s.source_type = "primary".toList || s.type_ = "primary".toList

/-- The per-source resolution cascade shared by `find_highest_quality_source`
and `find_lowest_quality_source`: URL, then non-empty asset key (used when the
label yields nothing). -/
def fromUrlOrKey (s : Source) : Option Nat :=
  match extract_resolution_from_url s.url with
  | some r => some r
  | none =>
    match s.asset_key with
    | some k => if k.isEmpty then none else extract_resolution k
    | none => none

/-- Full per-source resolution cascade: non-empty label text, then URL, then
non-empty asset key. -/
def resolutionOf (s : Source) : Option Nat :=
  match s.label with
  | some lbl =>
    if lbl.isEmpty then fromUrlOrKey s
    else
      match extract_resolution lbl with
      | some r => some r
      | none => fromUrlOrKey s
  | none => fromUrlOrKey s

/-- Loop body of `find_highest_quality_source`: update the best source only on
a strictly greater resolution (`resolution > max_resolution`). -/
def hstep (acc : Option Source × Nat) (s : Source) : Option Source × Nat :=
  match resolutionOf s with
  | some r => if acc.2 < r then (some s, r) else acc
  | none => acc

/-- `find_highest_quality_source` from `src/main.rs`: iterate over the sources
(restricted to primary ones when `prefer_primary`), starting from
`max_resolution = 0` and no best source. -/
def find_highest_quality_source (sources : List Source) (prefer_primary : Bool) :
    Option Source :=
  ((sources.filter fun s => if prefer_primary then isPrimary s else true).foldl
    hstep (none, 0)).1

/-- Loop body of `find_lowest_quality_source`: update on strictly smaller
resolution (`resolution < min_resolution`). -/
def lstep (acc : Option Source × Nat) (s : Source) : Option Source × Nat :=
  match resolutionOf s with
  | some r => if r < acc.2 then (some s, r) else acc
  | none => acc

/-- `find_lowest_quality_source` from `src/main.rs`: starts from
`min_resolution = u32::MAX = 4294967295`. -/
def find_lowest_quality_source (sources : List Source) (prefer_primary : Bool) :
    Option Source :=
  ((sources.filter fun s => if prefer_primary then isPrimary s else true).foldl
    lstep (none, 4294967295)).1

/-- `select_best_stream` from `src/main.rs`.  Attempt 1: first source whose
non-empty label contains the preference.  Attempt 2: if the CLI quality
argument is exactly "high" or "low", delegate to the dedicated searches with
`prefer_primary = true`.  Attempt 3: first source with a primary type, else the
first source. -/
def select_best_stream (sources : List Source) (quality_preference : Str)
    (cli_quality_arg : Option Str) : Option Source :=
  if sources.isEmpty then none
  else
    match sources.find? (labelMatch quality_preference) with
    | some v => some v
    | none =>
      if cli_quality_arg = some ("high".toList) then
        find_highest_quality_source sources true
      else if cli_quality_arg = some ("low".toList) then
        find_lowest_quality_source sources true
      else
        match sources.find? isPrimary with
        | some v => some v
        | none => sources.head?

/-- Outcome of the download branch of `handle_video_command`: either a download
is started from the selected source URL, or the caller reports that no
suitable stream was found and does not download. -/
inductive DownloadOutcome where
  | download (url : Str)
  | reportNoStream
deriving DecidableEq

/-- The download decision of `handle_video_command`: download from the selected
stream if any, otherwise report and skip. -/
def downloadStep (sources : List Source) (quality_preference : Str)
    (cli_quality_arg : Option Str) : DownloadOutcome :=
  match select_best_stream sources quality_preference cli_quality_arg with
  | some s => .download s.url
  | none => .reportNoStream

/-- `sanitize_filename` from `src/main.rs`: keep alphanumeric characters,
spaces, hyphens and underscores, then replace each space by an underscore. -/
def sanitize_filename (name : Str) : Str :=
  (name.filter fun c => c.isAlphanum || c = ' ' || c = '-' || c = '_').map
    fun c => if c = ' ' then '_' else c

/-! ## JSON model and serde-style decoding (`src/models.rs`, `src/api.rs`) -/

/-- A JSON value (`serde_json::Value`), numbers restricted to integers, which
covers every numeric field of the data model. -/
inductive Json where
  | null
  | bool (b : Bool)
  | num (n : Int)
  | str (s : Str)
  | arr (elems : List Json)
  | obj (fields : List (Str × Json))

/-- Structured decode failures, the inspectable content of
`ApiError::JsonDeserialization`. -/
inductive DecodeError where
  | missingField (name : Str)
  | typeMismatch (name : Str)
deriving DecidableEq

/-- Field lookup in a JSON object (first entry with the given key). -/
def getField : List (Str × Json) → Str → Option Json
  | [], _ => none
  | (k, v) :: rest, key => if k = key then some v else getField rest key

/-- `serde_json::Value::get` on a general value. -/
def jget (j : Json) (key : Str) : Option Json :=
  match j with
  | .obj fs => getField fs key
  | _ => none

/-- Decode a mandatory `String` field. -/
def reqStr (fs : List (Str × Json)) (key : Str) : Except DecodeError Str :=
  match getField fs key with
  | some (.str s) => .ok s
  | some _ => .error (.typeMismatch key)
  | none => .error (.missingField key)

/-- Decode an `Option<String>` field: absent and `null` both give `none`. -/
def optStr (fs : List (Str × Json)) (key : Str) : Except DecodeError (Option Str) :=
  match getField fs key with
  | some (.str s) => .ok (some s)
  | some .null => .ok none
  | some _ => .error (.typeMismatch key)
  | none => .ok none

/-- Decode a `#[serde(default)] String` field: absent gives the empty string. -/
def defStr (fs : List (Str × Json)) (key : Str) : Except DecodeError Str :=
  match getField fs key with
  | some (.str s) => .ok s
  | some _ => .error (.typeMismatch key)
  | none => .ok []

/-- Decode a mandatory unsigned-integer field with exclusive bound `bound`
(`2^32` for `u32`, `2^64` for `u64`). -/
def reqNat (fs : List (Str × Json)) (key : Str) (bound : Nat) :
    Except DecodeError Nat :=
  match getField fs key with
  | some (.num n) => if 0 ≤ n ∧ n < (bound : Int) then .ok n.toNat
                     else .error (.typeMismatch key)
  | some _ => .error (.typeMismatch key)
  | none => .error (.missingField key)

/-- Decode an optional unsigned-integer field. -/
def optNat (fs : List (Str × Json)) (key : Str) (bound : Nat) :
    Except DecodeError (Option Nat) :=
  match getField fs key with
  | some (.num n) => if 0 ≤ n ∧ n < (bound : Int) then .ok (some n.toNat)
                     else .error (.typeMismatch key)
  | some .null => .ok none
  | some _ => .error (.typeMismatch key)
  | none => .ok none

/-- Decode an optional nested structure: absent and `null` give `none`, any
other value must decode. -/
def optField (fs : List (Str × Json)) (key : Str)
    (dec : Json → Except DecodeError α) : Except DecodeError (Option α) :=
  match getField fs key with
  | some .null => .ok none
  | some j => (dec j).map some
  | none => .ok none

/-- The `#[serde(default, alias = "sourceType")] source_type` field of
`models::Source`: either spelling, defaulting to the empty string. -/
def sourceTypeField (fs : List (Str × Json)) : Except DecodeError Str :=
  match getField fs ("source_type".toList) with
  | some (.str s) => .ok s
  | some _ => .error (.typeMismatch ("source_type".toList))
  | none =>
    match getField fs ("sourceType".toList) with
    | some (.str s) => .ok s
    | some _ => .error (.typeMismatch ("sourceType".toList))
    | none => .ok []

/-- serde decoding of `models::Source`: `type` and `url` are mandatory, the
rest optional or defaulted. -/
def decodeSource (j : Json) : Except DecodeError Source :=
  match j with
  | .obj fs => do
    let t ← reqStr fs ("type".toList)
    let u ← reqStr fs ("url".toList)
    let lbl ← optStr fs ("label".toList)
    let st ← sourceTypeField fs
    let cd ← optStr fs ("cdn".toList)
    let tk ← optStr fs ("token".toList)
    let pp ← optStr fs ("pop".toList)
    let ak ← optStr fs ("asset_key".toList)
    let et ← optNat fs ("expiration_time".toList) 18446744073709551616
    pure { type_ := t, url := u, label := lbl, source_type := st, cdn := cd,
           token := tk, pop := pp, asset_key := ak, expiration_time := et }
  | _ => .error (.typeMismatch ("Source".toList))

/-- Decode a `Vec<Source>`; any malformed element fails the whole vector. -/
def decodeSources : List Json → Except DecodeError (List Source)
  | [] => .ok []
  | j :: rest => do
    let s ← decodeSource j
    let ss ← decodeSources rest
    pure (s :: ss)

/-- `models::VideoResourceDetails`: both fields optional. -/
structure VideoResourceDetails where
  id : Option Str
  name : Option Str
deriving DecidableEq

/-- serde decoding of `models::VideoResourceDetails`. -/
def decodeVideoResourceDetails (j : Json) :
    Except DecodeError VideoResourceDetails :=
  match j with
  | .obj fs => do
    let i ← optStr fs ("id".toList)
    let n ← optStr fs ("name".toList)
    pure { id := i, name := n }
  | _ => .error (.typeMismatch ("VideoResourceDetails".toList))

/-- `models::VideoMetadata` (numbers as `Nat`, bounded at decode time). -/
structure VideoMetadata where
  id : Nat
  title : Str
  description : Option Str
  type_ : Option Str
  video_type : Str
  duration : Option Nat
  program : Option Str
  program_id : Option Nat
  channel : Option Str
  channel_id : Option Nat
  category : Option Str
  created_at : Option Str
  exhibited_at : Option Str
  url_for_consumption : Option Str
  codec : Option Str
  max_height : Option Nat
deriving DecidableEq

/-- serde decoding of `models::VideoMetadata`: `id` (u64), `title` and the
renamed `type` field are mandatory; the rest optional. -/
def decodeVideoMetadata (j : Json) : Except DecodeError VideoMetadata :=
  match j with
  | .obj fs => do
    let i ← reqNat fs ("id".toList) 18446744073709551616
    let t ← reqStr fs ("title".toList)
    let de ← optStr fs ("description".toList)
    let ty ← optStr fs ("type_".toList)
    let vt ← reqStr fs ("type".toList)
    let du ← optNat fs ("duration".toList) 18446744073709551616
    let pr ← optStr fs ("program".toList)
    let pid ← optNat fs ("program_id".toList) 18446744073709551616
    let ch ← optStr fs ("channel".toList)
    let cid ← optNat fs ("channel_id".toList) 18446744073709551616
    let ca ← optStr fs ("category".toList)
    let cr ← optStr fs ("created_at".toList)
    let ex ← optStr fs ("exhibited_at".toList)
    let uc ← optStr fs ("url_for_consumption".toList)
    let co ← optStr fs ("codec".toList)
    let mh ← optNat fs ("max_height".toList) 18446744073709551616
    pure { id := i, title := t, description := de, type_ := ty, video_type := vt,
           duration := du, program := pr, program_id := pid, channel := ch,
           channel_id := cid, category := ca, created_at := cr,
           exhibited_at := ex, url_for_consumption := uc, codec := co,
           max_height := mh }
  | _ => .error (.typeMismatch ("VideoMetadata".toList))

/-- `models::VideoSession`. -/
structure VideoSession where
  session : Str
  sources : List Source
  resource : Option VideoResourceDetails
  metadata : Option VideoMetadata
  thumbs_preview_base_url : Option Str
  thumbs_url : Option Str
deriving DecidableEq

/-- serde decoding of `models::VideoSession`: `sources` is mandatory; a failure
on any source fails the whole session. -/
def decodeVideoSession (j : Json) : Except DecodeError VideoSession :=
  match j with
  | .obj fs => do
    let se ← defStr fs ("session".toList)
    let ss ← (match getField fs ("sources".toList) with
      | some (.arr xs) => decodeSources xs
      | some _ => .error (.typeMismatch ("sources".toList))
      | none => .error (.missingField ("sources".toList)))
    let re ← optField fs ("resource".toList) decodeVideoResourceDetails
    let me ← optField fs ("metadata".toList) decodeVideoMetadata
    let tp ← optStr fs ("thumbs_preview_base_url".toList)
    let tu ← optStr fs ("thumbs_url".toList)
    pure { session := se, sources := ss, resource := re, metadata := me,
           thumbs_preview_base_url := tp, thumbs_url := tu }
  | _ => .error (.typeMismatch ("VideoSession".toList))

/-- `models::DatedVideoItem`: `id` and `title` mandatory, the rest optional. -/
structure DatedVideoItem where
  id : Str
  title : Str
  date_formated : Option Str
  headline : Option Str
  summary : Option Str
  duration_formatted : Option Str
  duration_seconds : Option Nat
  custom_id : Option Str
  resource_id : Option Str
  video_url : Option Str
deriving DecidableEq

/-- serde decoding of `models::DatedVideoItem`. -/
def decodeDatedVideoItem (j : Json) : Except DecodeError DatedVideoItem :=
  match j with
  | .obj fs => do
    let i ← reqStr fs ("id".toList)
    let t ← reqStr fs ("title".toList)
    let df ← optStr fs ("date_formated".toList)
    let hl ← optStr fs ("headline".toList)
    let sm ← optStr fs ("summary".toList)
    let duf ← optStr fs ("duration_formatted".toList)
    let ds ← optNat fs ("duration_seconds".toList) 4294967296
    let ci ← optStr fs ("custom_id".toList)
    let ri ← optStr fs ("resource_id".toList)
    let vu ← optStr fs ("video_url".toList)
    pure { id := i, title := t, date_formated := df, headline := hl,
           summary := sm, duration_formatted := duf, duration_seconds := ds,
           custom_id := ci, resource_id := ri, video_url := vu }
  | _ => .error (.typeMismatch ("DatedVideoItem".toList))

/-- Decode a `Vec<DatedVideoItem>`; any malformed element fails the vector. -/
def decodeDatedItems : List Json → Except DecodeError (List DatedVideoItem)
  | [] => .ok []
  | j :: rest => do
    let x ← decodeDatedVideoItem j
    let xs ← decodeDatedItems rest
    pure (x :: xs)

/-- `models::DatedVideosResponse`. -/
structure DatedVideosResponse where
  items : List DatedVideoItem
  count : Option Nat
  next : Option Str
deriving DecidableEq

/-- serde decoding of `models::DatedVideosResponse`: `items` mandatory. -/
def decodeDatedVideosResponse (j : Json) :
    Except DecodeError DatedVideosResponse :=
  match j with
  | .obj fs => do
    let its ← (match getField fs ("items".toList) with
      | some (.arr xs) => decodeDatedItems xs
      | some _ => .error (.typeMismatch ("items".toList))
      | none => .error (.missingField ("items".toList)))
    let ct ← optNat fs ("count".toList) 4294967296
    let nx ← optStr fs ("next".toList)
    pure { items := its, count := ct, next := nx }
  | _ => .error (.typeMismatch ("DatedVideosResponse".toList))

/-- `api::ApiError` (the `Request` variant stands for a transport failure,
whose payload is outside the model). -/
inductive ApiError where
  | request
  | http (status : Nat) (body : Str)
  | jsonDeserialization (e : DecodeError)
  | globoApi (msg : Str)
deriving DecidableEq

/-- The success-path parsing stage of `api::fetch_video_session`: deserialize
the response body into a `VideoSession`, wrapping failures in
`ApiError::JsonDeserialization`. -/
def parseVideoSessionBody (body : Json) : Except ApiError VideoSession :=
  (decodeVideoSession body).mapError ApiError.jsonDeserialization

/-- The fixed nested path `data.title.structure.excerpts.resources` extracted
by `api::fetch_videos_by_date` from the GraphQL envelope. -/
def extractResources (g : Json) : Option Json :=
  ((((jget g ("data".toList)).bind
    (jget · ("title".toList))).bind
    (jget · ("structure".toList))).bind
    (jget · ("excerpts".toList))).bind
    (jget · ("resources".toList))

/-- The error message produced when the nested GraphQL path is absent. -/
def missingResourcesMsg : Str := "Missing resources in GraphQL response".toList

/-- The success-path parsing stage of `api::fetch_videos_by_date`: locate the
nested resources value, then decode it as a `DatedVideosResponse`. -/
def parseVideosByDate (g : Json) : Except ApiError DatedVideosResponse :=
  match extractResources g with
  | none => .error (.globoApi missingResourcesMsg)
  | some r => (decodeDatedVideosResponse r).mapError ApiError.jsonDeserialization

/-! ## Characterization of the quality searches -/

/-- Recursion describing the fold of `find_highest_quality_source`: with the
running maximum `m`, return the final best source and its resolution, or
`none` when no source strictly exceeds `m`. -/
def runHigh (m : Nat) : List Source → Option (Source × Nat)
  | [] => none
  | v :: rest =>
    match resolutionOf v with
    | some r =>
      if m < r then some ((runHigh r rest).getD (v, r)) else runHigh m rest
    | none => runHigh m rest

theorem foldl_hstep_eq (l : List Source) : ∀ (b : Option Source) (m : Nat),
    l.foldl hstep (b, m) =
      (match runHigh m l with
       | some p => (some p.1, p.2)
       | none => (b, m)) := by
  induction l with
  | nil => intro b m; rfl
  | cons v rest ih =>
    intro b m
    simp only [List.foldl_cons, hstep, runHigh]
    cases hres : resolutionOf v with
    | none => exact ih b m
    | some r =>
      by_cases hm : m < r
      · simp only [if_pos hm]
        rw [ih (some v) r]
        cases hrun : runHigh r rest with
        | none => simp
        | some p => simp
      · simp only [if_neg hm]
        exact ih b m

theorem runHigh_none {l : List Source} : ∀ {m : Nat}, runHigh m l = none →
    ∀ w ∈ l, ∀ rw, resolutionOf w = some rw → rw ≤ m := by
  induction l with
  | nil => intro m _ w hw; cases hw
  | cons v rest ih =>
    intro m h w hw rw hrw
    simp only [runHigh] at h
    cases hres : resolutionOf v with
    | none =>
      simp only [hres] at h
      rcases List.mem_cons.mp hw with rfl | hw2
      · rw [hres] at hrw; cases hrw
      · exact ih h w hw2 rw hrw
    | some r =>
      simp only [hres] at h
      by_cases hm : m < r
      · rw [if_pos hm] at h
        cases hrun : runHigh r rest <;> rw [hrun] at h <;> cases h
      · rw [if_neg hm] at h
        rcases List.mem_cons.mp hw with rfl | hw2
        · rw [hres] at hrw
          cases hrw
          exact Nat.le_of_not_lt hm
        · exact ih h w hw2 rw hrw

theorem runHigh_some {l : List Source} : ∀ {m : Nat} {v : Source} {r : Nat},
    runHigh m l = some (v, r) →
    v ∈ l ∧ resolutionOf v = some r ∧ m < r ∧
      ∀ w ∈ l, ∀ rw, resolutionOf w = some rw → rw ≤ r := by
  induction l with
  | nil => intro m v r h; cases h
  | cons u rest ih =>
    intro m v r h
    simp only [runHigh] at h
    cases hres : resolutionOf u with
    | none =>
      simp only [hres] at h
      obtain ⟨hmem, hres2, hlt, hbound⟩ := ih h
      refine ⟨List.mem_cons_of_mem _ hmem, hres2, hlt, ?_⟩
      intro w hw rw hrw
      rcases List.mem_cons.mp hw with rfl | hw2
      · rw [hres] at hrw; cases hrw
      · exact hbound w hw2 rw hrw
    | some ru =>
      simp only [hres] at h
      by_cases hm : m < ru
      · rw [if_pos hm] at h
        cases hrun : runHigh ru rest with
        | none =>
          rw [hrun] at h
          simp only [Option.getD, Option.some.injEq] at h
          obtain ⟨rfl, rfl⟩ := Prod.mk.injEq .. ▸ (Prod.ext_iff.mp h.symm)
          refine ⟨List.mem_cons_self .., hres, hm, ?_⟩
          intro w hw rw hrw
          rcases List.mem_cons.mp hw with rfl | hw2
          · rw [hres] at hrw; cases hrw; exact Nat.le_refl _
          · exact runHigh_none hrun w hw2 rw hrw
        | some p =>
          rw [hrun] at h
          simp only [Option.getD, Option.some.injEq] at h
          subst h
          obtain ⟨hmem, hres2, hlt, hbound⟩ := ih hrun
          refine ⟨List.mem_cons_of_mem _ hmem, hres2, Nat.lt_trans hm hlt, ?_⟩
          intro w hw rw hrw
          rcases List.mem_cons.mp hw with rfl | hw2
          · rw [hres] at hrw; cases hrw; exact Nat.le_of_lt hlt
          · exact hbound w hw2 rw hrw
      · rw [if_neg hm] at h
        obtain ⟨hmem, hres2, hlt, hbound⟩ := ih h
        refine ⟨List.mem_cons_of_mem _ hmem, hres2, hlt, ?_⟩
        intro w hw rw hrw
        rcases List.mem_cons.mp hw with rfl | hw2
        · rw [hres] at hrw
          cases hrw
          exact Nat.le_of_lt (Nat.lt_of_le_of_lt (Nat.le_of_not_lt hm) hlt)
        · exact hbound w hw2 rw hrw

theorem runHigh_first {l : List Source} : ∀ {m : Nat} {v : Source} {r : Nat},
    runHigh m l = some (v, r) →
    ∃ l₁ l₂, l = l₁ ++ v :: l₂ ∧
      ∀ w ∈ l₁, ∀ rw, resolutionOf w = some rw → rw < r := by
  induction l with
  | nil => intro m v r h; cases h
  | cons u rest ih =>
    intro m v r h
    simp only [runHigh] at h
    cases hres : resolutionOf u with
    | none =>
      simp only [hres] at h
      obtain ⟨l₁, l₂, rfl, hlt⟩ := ih h
      refine ⟨u :: l₁, l₂, rfl, ?_⟩
      intro w hw rw hrw
      rcases List.mem_cons.mp hw with rfl | hw2
      · rw [hres] at hrw; cases hrw
      · exact hlt w hw2 rw hrw
    | some ru =>
      simp only [hres] at h
      by_cases hm : m < ru
      · rw [if_pos hm] at h
        cases hrun : runHigh ru rest with
        | none =>
          rw [hrun] at h
          simp only [Option.getD, Option.some.injEq] at h
          obtain ⟨rfl, rfl⟩ := Prod.mk.injEq .. ▸ (Prod.ext_iff.mp h.symm)
          exact ⟨[], rest, rfl, by intro w hw; cases hw⟩
        | some p =>
          rw [hrun] at h
          simp only [Option.getD, Option.some.injEq] at h
          subst h
          obtain ⟨l₁, l₂, hsplit, hlt⟩ := ih hrun
          have hur : ru < r := (runHigh_some hrun).2.2.1
          refine ⟨u :: l₁, l₂, by rw [hsplit, List.cons_append], ?_⟩
          intro w hw rw hrw
          rcases List.mem_cons.mp hw with rfl | hw2
          · rw [hres] at hrw; cases hrw; exact hur
          · exact hlt w hw2 rw hrw
      · rw [if_neg hm] at h
        obtain ⟨l₁, l₂, hsplit, hlt⟩ := ih h
        have hmr : m < r := (runHigh_some h).2.2.1
        refine ⟨u :: l₁, l₂, by rw [hsplit, List.cons_append], ?_⟩
        intro w hw rw hrw
        rcases List.mem_cons.mp hw with rfl | hw2
        · rw [hres] at hrw
          cases hrw
          exact Nat.lt_of_le_of_lt (Nat.le_of_not_lt hm) hmr
        · exact hlt w hw2 rw hrw

theorem find_highest_eq (sources : List Source) :
    find_highest_quality_source sources true =
      Option.map Prod.fst (runHigh 0 (sources.filter isPrimary)) := by
  unfold find_highest_quality_source
  have hfe : (sources.filter fun s => if true then isPrimary s else true) =
      sources.filter isPrimary := by simp
  rw [hfe, foldl_hstep_eq]
  cases runHigh 0 (sources.filter isPrimary) <;> rfl

/-- Recursion describing the fold of `find_lowest_quality_source`. -/
def runLow (m : Nat) : List Source → Option (Source × Nat)
  | [] => none
  | v :: rest =>
    match resolutionOf v with
    | some r =>
      if r < m then some ((runLow r rest).getD (v, r)) else runLow m rest
    | none => runLow m rest

theorem foldl_lstep_eq (l : List Source) : ∀ (b : Option Source) (m : Nat),
    l.foldl lstep (b, m) =
      (match runLow m l with
       | some p => (some p.1, p.2)
       | none => (b, m)) := by
  induction l with
  | nil => intro b m; rfl
  | cons v rest ih =>
    intro b m
    simp only [List.foldl_cons, lstep, runLow]
    cases hres : resolutionOf v with
    | none => exact ih b m
    | some r =>
      by_cases hm : r < m
      · simp only [if_pos hm]
        rw [ih (some v) r]
        cases hrun : runLow r rest with
        | none => simp
        | some p => simp
      · simp only [if_neg hm]
        exact ih b m

theorem runLow_none {l : List Source} : ∀ {m : Nat}, runLow m l = none →
    ∀ w ∈ l, ∀ rw, resolutionOf w = some rw → m ≤ rw := by
  induction l with
  | nil => intro m _ w hw; cases hw
  | cons v rest ih =>
    intro m h w hw rw hrw
    simp only [runLow] at h
    cases hres : resolutionOf v with
    | none =>
      simp only [hres] at h
      rcases List.mem_cons.mp hw with rfl | hw2
      · rw [hres] at hrw; cases hrw
      · exact ih h w hw2 rw hrw
    | some r =>
      simp only [hres] at h
      by_cases hm : r < m
      · rw [if_pos hm] at h
        cases hrun : runLow r rest <;> rw [hrun] at h <;> cases h
      · rw [if_neg hm] at h
        rcases List.mem_cons.mp hw with rfl | hw2
        · rw [hres] at hrw
          cases hrw
          exact Nat.le_of_not_lt hm
        · exact ih h w hw2 rw hrw

theorem runLow_some {l : List Source} : ∀ {m : Nat} {v : Source} {r : Nat},
    runLow m l = some (v, r) →
    v ∈ l ∧ resolutionOf v = some r ∧ r < m ∧
      ∀ w ∈ l, ∀ rw, resolutionOf w = some rw → r ≤ rw := by
  induction l with
  | nil => intro m v r h; cases h
  | cons u rest ih =>
    intro m v r h
    simp only [runLow] at h
    cases hres : resolutionOf u with
    | none =>
      simp only [hres] at h
      obtain ⟨hmem, hres2, hlt, hbound⟩ := ih h
      refine ⟨List.mem_cons_of_mem _ hmem, hres2, hlt, ?_⟩
      intro w hw rw hrw
      rcases List.mem_cons.mp hw with rfl | hw2
      · rw [hres] at hrw; cases hrw
      · exact hbound w hw2 rw hrw
    | some ru =>
      simp only [hres] at h
      by_cases hm : ru < m
      · rw [if_pos hm] at h
        cases hrun : runLow ru rest with
        | none =>
          rw [hrun] at h
          simp only [Option.getD, Option.some.injEq] at h
          obtain ⟨rfl, rfl⟩ := Prod.mk.injEq .. ▸ (Prod.ext_iff.mp h.symm)
          refine ⟨List.mem_cons_self .., hres, hm, ?_⟩
          intro w hw rw hrw
          rcases List.mem_cons.mp hw with rfl | hw2
          · rw [hres] at hrw; cases hrw; exact Nat.le_refl _
          · exact runLow_none hrun w hw2 rw hrw
        | some p =>
          rw [hrun] at h
          simp only [Option.getD, Option.some.injEq] at h
          subst h
          obtain ⟨hmem, hres2, hlt, hbound⟩ := ih hrun
          refine ⟨List.mem_cons_of_mem _ hmem, hres2, Nat.lt_trans hlt hm, ?_⟩
          intro w hw rw hrw
          rcases List.mem_cons.mp hw with rfl | hw2
          · rw [hres] at hrw; cases hrw; exact Nat.le_of_lt hlt
          · exact hbound w hw2 rw hrw
      · rw [if_neg hm] at h
        obtain ⟨hmem, hres2, hlt, hbound⟩ := ih h
        refine ⟨List.mem_cons_of_mem _ hmem, hres2, hlt, ?_⟩
        intro w hw rw hrw
        rcases List.mem_cons.mp hw with rfl | hw2
        · rw [hres] at hrw
          cases hrw
          exact Nat.le_of_lt (Nat.lt_of_lt_of_le hlt (Nat.le_of_not_lt hm))
        · exact hbound w hw2 rw hrw

theorem runLow_first {l : List Source} : ∀ {m : Nat} {v : Source} {r : Nat},
    runLow m l = some (v, r) →
    ∃ l₁ l₂, l = l₁ ++ v :: l₂ ∧
      ∀ w ∈ l₁, ∀ rw, resolutionOf w = some rw → r < rw := by
  induction l with
  | nil => intro m v r h; cases h
  | cons u rest ih =>
    intro m v r h
    simp only [runLow] at h
    cases hres : resolutionOf u with
    | none =>
      simp only [hres] at h
      obtain ⟨l₁, l₂, rfl, hlt⟩ := ih h
      refine ⟨u :: l₁, l₂, rfl, ?_⟩
      intro w hw rw hrw
      rcases List.mem_cons.mp hw with rfl | hw2
      · rw [hres] at hrw; cases hrw
      · exact hlt w hw2 rw hrw
    | some ru =>
      simp only [hres] at h
      by_cases hm : ru < m
      · rw [if_pos hm] at h
        cases hrun : runLow ru rest with
        | none =>
          rw [hrun] at h
          simp only [Option.getD, Option.some.injEq] at h
          obtain ⟨rfl, rfl⟩ := Prod.mk.injEq .. ▸ (Prod.ext_iff.mp h.symm)
          exact ⟨[], rest, rfl, by intro w hw; cases hw⟩
        | some p =>
          rw [hrun] at h
          simp only [Option.getD, Option.some.injEq] at h
          subst h
          obtain ⟨l₁, l₂, hsplit, hlt⟩ := ih hrun
          have hur : r < ru := (runLow_some hrun).2.2.1
          refine ⟨u :: l₁, l₂, by rw [hsplit, List.cons_append], ?_⟩
          intro w hw rw hrw
          rcases List.mem_cons.mp hw with rfl | hw2
          · rw [hres] at hrw; cases hrw; exact hur
          · exact hlt w hw2 rw hrw
      · rw [if_neg hm] at h
        obtain ⟨l₁, l₂, hsplit, hlt⟩ := ih h
        have hmr : r < m := (runLow_some h).2.2.1
        refine ⟨u :: l₁, l₂, by rw [hsplit, List.cons_append], ?_⟩
        intro w hw rw hrw
        rcases List.mem_cons.mp hw with rfl | hw2
        · rw [hres] at hrw
          cases hrw
          exact Nat.lt_of_lt_of_le hmr (Nat.le_of_not_lt hm)
        · exact hlt w hw2 rw hrw

theorem find_lowest_eq (sources : List Source) :
    find_lowest_quality_source sources true =
      Option.map Prod.fst (runLow 4294967295 (sources.filter isPrimary)) := by
  unfold find_lowest_quality_source
  have hfe : (sources.filter fun s => if true then isPrimary s else true) =
      sources.filter isPrimary := by simp
  rw [hfe, foldl_lstep_eq]
  cases runLow 4294967295 (sources.filter isPrimary) <;> rfl

/-! ## Soundness of the pattern scans -/

theorem scanPCapture_sound {l cap : Str} (h : scanPCapture l = some cap) :
    ∃ l₁ l₂, l = l₁ ++ cap ++ 'p' :: l₂ ∧ cap ≠ [] ∧ ∀ c ∈ cap, c.isDigit := by
  induction l with
  | nil => cases h
  | cons c rest ih =>
    simp only [scanPCapture] at h
    by_cases hd : c.isDigit
    · rw [if_pos hd] at h
      cases hdw : rest.dropWhile Char.isDigit with
      | nil =>
        simp only [hdw] at h
        obtain ⟨l₁, l₂, rfl, hne, hdig⟩ := ih h
        exact ⟨c :: l₁, l₂, rfl, hne, hdig⟩
      | cons d tl =>
        simp only [hdw] at h
        by_cases hdp : d = 'p'
        · subst hdp
          rw [if_pos rfl] at h
          injection h with h
          subst h
          refine ⟨[], tl, ?_, by simp, ?_⟩
          · simp only [List.nil_append, List.cons_append]
            rw [← hdw, List.takeWhile_append_dropWhile]
          · intro x hx
            rcases List.mem_cons.mp hx with rfl | hx2
            · exact hd
            · exact List.mem_takeWhile_imp hx2
        · rw [if_neg hdp] at h
          obtain ⟨l₁, l₂, rfl, hne, hdig⟩ := ih h
          exact ⟨c :: l₁, l₂, rfl, hne, hdig⟩
    · rw [if_neg hd] at h
      obtain ⟨l₁, l₂, rfl, hne, hdig⟩ := ih h
      exact ⟨c :: l₁, l₂, rfl, hne, hdig⟩

theorem scanRCapture_sound {l cap : Str} (h : scanRCapture l = some cap) :
    ∃ l₁ run l₂, l = l₁ ++ 'r' :: run ++ '_' :: cap ++ l₂ ∧ run ≠ [] ∧
      (∀ c ∈ run, c.isDigit) ∧ cap ≠ [] ∧ ∀ c ∈ cap, c.isDigit := by
  induction l with
  | nil => cases h
  | cons c rest ih =>
    simp only [scanRCapture] at h
    by_cases hc : c = 'r'
    · rw [if_pos hc] at h
      subst hc
      cases htw : rest.takeWhile Char.isDigit with
      | nil =>
        simp only [htw] at h
        obtain ⟨l₁, run, l₂, rfl, hrun, hdig, hcap, hcapd⟩ := ih h
        exact ⟨'r' :: l₁, run, l₂, rfl, hrun, hdig, hcap, hcapd⟩
      | cons t ts =>
        cases hdw : rest.dropWhile Char.isDigit with
        | nil =>
          simp only [htw, hdw] at h
          obtain ⟨l₁, run, l₂, rfl, hrun, hdig, hcap, hcapd⟩ := ih h
          exact ⟨'r' :: l₁, run, l₂, rfl, hrun, hdig, hcap, hcapd⟩
        | cons d rest2 =>
          simp only [htw, hdw] at h
          by_cases hdu : d = '_'
          · subst hdu
            rw [if_pos rfl] at h
            cases htw2 : rest2.takeWhile Char.isDigit with
            | nil =>
              simp only [htw2] at h
              obtain ⟨l₁, run, l₂, rfl, hrun, hdig, hcap, hcapd⟩ := ih h
              exact ⟨'r' :: l₁, run, l₂, rfl, hrun, hdig, hcap, hcapd⟩
            | cons e es =>
              simp only [htw2] at h
              injection h with h
              subst h
              refine ⟨[], t :: ts, rest2.dropWhile Char.isDigit, ?_, by simp,
                ?_, by simp, ?_⟩
              · have h1 : rest = (t :: ts) ++ '_' :: rest2 := by
                  rw [← htw, ← hdw, List.takeWhile_append_dropWhile]
                have h2 : rest2 = (e :: es) ++ rest2.dropWhile Char.isDigit := by
                  rw [← htw2, List.takeWhile_append_dropWhile]
                conv_lhs => rw [h1, h2]
                simp [List.append_assoc]
              · intro x hx
                rw [← htw] at hx
                exact List.mem_takeWhile_imp hx
              · intro x hx
                rw [← htw2] at hx
                exact List.mem_takeWhile_imp hx
          · rw [if_neg hdu] at h
            obtain ⟨l₁, run, l₂, rfl, hrun, hdig, hcap, hcapd⟩ := ih h
            exact ⟨'r' :: l₁, run, l₂, rfl, hrun, hdig, hcap, hcapd⟩
    · rw [if_neg hc] at h
      obtain ⟨l₁, run, l₂, rfl, hrun, hdig, hcap, hcapd⟩ := ih h
      exact ⟨c :: l₁, run, l₂, rfl, hrun, hdig, hcap, hcapd⟩

theorem slashAt_sound {rest cap : Str} (h : slashAt rest = some cap) :
    ∃ d l₂, rest = cap ++ d :: l₂ ∧ (cap.length = 3 ∨ cap.length = 4) ∧
      (∀ c ∈ cap, c.isDigit) ∧ isDelim d := by
  match rest, h with
  | d1 :: d2 :: d3 :: d4 :: d5 :: tl, h =>
    simp only [slashAt] at h
    by_cases h4 : d1.isDigit && d2.isDigit && d3.isDigit && d4.isDigit && isDelim d5
    · rw [if_pos h4] at h
      injection h with h
      subst h
      simp only [Bool.and_eq_true] at h4
      refine ⟨d5, tl, by simp, by simp, ?_, h4.2⟩
      intro x hx
      simp only [List.mem_cons] at hx
      rcases hx with rfl | rfl | rfl | rfl | hx
      · exact h4.1.1.1.1
      · exact h4.1.1.1.2
      · exact h4.1.1.2
      · exact h4.1.2
      · cases hx
    · rw [if_neg h4] at h
      by_cases h3 : d1.isDigit && d2.isDigit && d3.isDigit && isDelim d4
      · rw [if_pos h3] at h
        injection h with h
        subst h
        simp only [Bool.and_eq_true] at h3
        refine ⟨d4, d5 :: tl, by simp, by simp, ?_, h3.2⟩
        intro x hx
        simp only [List.mem_cons] at hx
        rcases hx with rfl | rfl | rfl | hx
        · exact h3.1.1.1
        · exact h3.1.1.2
        · exact h3.1.2
        · cases hx
      · rw [if_neg h3] at h
        cases h
  | [d1, d2, d3, d4], h =>
    simp only [slashAt] at h
    by_cases h3 : d1.isDigit && d2.isDigit && d3.isDigit && isDelim d4
    · rw [if_pos h3] at h
      injection h with h
      subst h
      simp only [Bool.and_eq_true] at h3
      refine ⟨d4, [], by simp, by simp, ?_, h3.2⟩
      intro x hx
      simp only [List.mem_cons] at hx
      rcases hx with rfl | rfl | rfl | hx
      · exact h3.1.1.1
      · exact h3.1.1.2
      · exact h3.1.2
      · cases hx
    · rw [if_neg h3] at h
      cases h
  | [], h => cases h
  | [d1], h => cases h
  | [d1, d2], h => cases h
  | [d1, d2, d3], h => cases h

theorem scanSlashCapture_sound {l cap : Str} (h : scanSlashCapture l = some cap) :
    ∃ l₁ d l₂, l = l₁ ++ '/' :: cap ++ d :: l₂ ∧
      (cap.length = 3 ∨ cap.length = 4) ∧ (∀ c ∈ cap, c.isDigit) ∧ isDelim d := by
  induction l with
  | nil => cases h
  | cons c rest ih =>
    simp only [scanSlashCapture] at h
    by_cases hc : c = '/'
    · rw [if_pos hc] at h
      subst hc
      cases hat : slashAt rest with
      | none =>
        simp only [hat] at h
        obtain ⟨l₁, d, l₂, rfl, hlen, hdig, hdel⟩ := ih h
        exact ⟨'/' :: l₁, d, l₂, rfl, hlen, hdig, hdel⟩
      | some cap2 =>
        simp only [hat] at h
        injection h with h
        subst h
        obtain ⟨d, l₂, hrest, hlen, hdig, hdel⟩ := slashAt_sound hat
        exact ⟨[], d, l₂, by rw [hrest]; simp, hlen, hdig, hdel⟩
    · rw [if_neg hc] at h
      obtain ⟨l₁, d, l₂, rfl, hlen, hdig, hdel⟩ := ih h
      exact ⟨c :: l₁, d, l₂, rfl, hlen, hdig, hdel⟩

/-! ## Reduction lemmas for `Except` chains and the field decoders -/

theorem ebind_ok (a : α) (f : α → Except ε β) : (Except.ok a >>= f) = f a := rfl

theorem ebind_error (e : ε) (f : α → Except ε β) :
    ((Except.error e : Except ε α) >>= f) = .error e := rfl

theorem emap_ok (g : α → β) (a : α) :
    (g <$> (Except.ok a : Except ε α)) = .ok (g a) := rfl

theorem emap_error (g : α → β) (e : ε) :
    (g <$> (Except.error e : Except ε α)) = .error e := rfl

theorem epure_ok (a : α) : (pure a : Except ε α) = .ok a := rfl

theorem reqStr_ok {fs : List (Str × Json)} {key v : Str}
    (h : getField fs key = some (.str v)) : reqStr fs key = .ok v := by
  simp [reqStr, h]

theorem reqStr_missing {fs : List (Str × Json)} {key : Str}
    (h : getField fs key = none) :
    reqStr fs key = .error (.missingField key) := by
  simp [reqStr, h]

theorem optStr_map {fs : List (Str × Json)} {key : Str} {v : Option Str}
    (h : getField fs key = v.map Json.str) : optStr fs key = .ok v := by
  cases v <;> simp_all [optStr]

theorem optNat_map {fs : List (Str × Json)} {key : Str} {bound : Nat}
    {v : Option Nat}
    (h : getField fs key = v.map fun m => Json.num (m : Int))
    (hb : ∀ m, v = some m → m < bound) : optNat fs key bound = .ok v := by
  cases v with
  | none => simp_all [optNat]
  | some m =>
    have hm : m < bound := hb m rfl
    replace h : getField fs key = some (Json.num (m : Int)) := h
    simp only [optNat, h]
    rw [if_pos ⟨Int.natCast_nonneg m, by exact_mod_cast hm⟩]
    simp

theorem decodeSource_error_of_no_url {rec : List (Str × Json)}
    (h : getField rec ("url".toList) = none) :
    ∃ e, decodeSource (Json.obj rec) = .error e := by
  cases ht : reqStr rec ("type".toList) with
  | error e => exact ⟨e, by simp only [decodeSource, ht, ebind_error]⟩
  | ok t =>
    exact ⟨.missingField ("url".toList),
      by simp only [decodeSource, ht, reqStr_missing h, ebind_ok, ebind_error]⟩

theorem decodeSources_error {j : Json} (pre post : List Json)
    (h : ∃ e, decodeSource j = .error e) :
    ∃ e2, decodeSources (pre ++ j :: post) = .error e2 := by
  induction pre with
  | nil =>
    obtain ⟨e, he⟩ := h
    exact ⟨e, by simp [decodeSources, he, ebind_error]⟩
  | cons p ps ih =>
    obtain ⟨e2, he2⟩ := ih
    cases hp : decodeSource p with
    | error ep => exact ⟨ep, by simp [decodeSources, hp, ebind_error]⟩
    | ok sp =>
      exact ⟨e2, by simp [decodeSources, hp, he2, ebind_ok, ebind_error]⟩

theorem decodeDatedItems_error {j : Json} (pre post : List Json)
    (h : ∃ e, decodeDatedVideoItem j = .error e) :
    ∃ e2, decodeDatedItems (pre ++ j :: post) = .error e2 := by
  induction pre with
  | nil =>
    obtain ⟨e, he⟩ := h
    exact ⟨e, by simp [decodeDatedItems, he, ebind_error]⟩
  | cons p ps ih =>
    obtain ⟨e2, he2⟩ := ih
    cases hp : decodeDatedVideoItem p with
    | error ep => exact ⟨ep, by simp [decodeDatedItems, hp, ebind_error]⟩
    | ok sp =>
      exact ⟨e2, by simp [decodeDatedItems, hp, he2, ebind_ok, ebind_error]⟩

/-! ## Concrete fixtures -/

/-- `{label:"480p", url:"a"}` with primary type. -/
def srcP480 : Source :=
  ⟨"primary".toList, "a".toList, some ("480p".toList), [], none, none, none,
   none, none⟩

/-- `{label:"720p", url:"b"}` with primary type. -/
def srcP720 : Source :=
  ⟨"primary".toList, "b".toList, some ("720p".toList), [], none, none, none,
   none, none⟩

/-- `{label:"1080p", url:"c"}` with primary type. -/
def srcP1080 : Source :=
  ⟨"primary".toList, "c".toList, some ("1080p".toList), [], none, none, none,
   none, none⟩

/-- The spec example list with all three variants primary. -/
def exampleP : List Source := [srcP480, srcP720, srcP1080]

/-- `{label:"480p", url:"a"}` with no type information. -/
def srcU480 : Source :=
  ⟨[], "a".toList, some ("480p".toList), [], none, none, none, none, none⟩

/-- `{label:"720p", url:"b"}` with no type information. -/
def srcU720 : Source :=
  ⟨[], "b".toList, some ("720p".toList), [], none, none, none, none, none⟩

/-- `{label:"1080p", url:"c"}` with no type information. -/
def srcU1080 : Source :=
  ⟨[], "c".toList, some ("1080p".toList), [], none, none, none, none, none⟩

/-- The spec example list as written (no variant kind given). -/
def exampleU : List Source := [srcU480, srcU720, srcU1080]

/-- A primary variant whose only resolution signal is the label "0p". -/
def srcP0 : Source :=
  ⟨"primary".toList, "z".toList, some ("0p".toList), [], none, none, none,
   none, none⟩

/-- A primary variant whose label parses to `u32::MAX`. -/
def srcPMax : Source :=
  ⟨"primary".toList, "w".toList, some ("4294967295p".toList), [], none, none,
   none, none, none⟩

/-- `{label:"", url:"x", kind:Fallback}` from the spec example. -/
def srcFX : Source :=
  ⟨"fallback".toList, "x".toList, some [], [], none, none, none, none, none⟩

/-- `{label:"", url:"y", kind:Primary}` from the spec example. -/
def srcPY : Source :=
  ⟨"primary".toList, "y".toList, some [], [], none, none, none, none, none⟩

/-- The spec example list with no parsable resolution anywhere. -/
def exampleC2 : List Source := [srcFX, srcPY]

/-! ## Claim theorems -/

/-- Modelled from the spec: the pattern priority claimed for URL extraction —
digits-then-`p` first, then the `r<digits>_<digits>` marker, then the
delimited 3–4 digit run.  Defined only to compare the claimed order against
`extract_resolution_from_url`. -/
def claimOrderUrlExtract (url : Str) : Option Nat :=
  match (scanPCapture url).bind parseU32 with
  | some n => some n
  | none =>
    match (scanRCapture url).bind parseU32 with
    | some n => some n
    | none => (scanSlashCapture url).bind parseU32

/-- C3 counterexample: on "r360_1080/720p" the code returns 1080 (the
`r<digits>_<digits>` pattern is tried first), while the claimed order
(digits-then-`p` first) would return 720; and "_123_" (a 3-digit run delimited
by underscores on both sides) extracts nothing because the third pattern
requires a leading `/`. -/
theorem c3_url_pattern_counterexample :
    extract_resolution_from_url ("r360_1080/720p".toList) = some 1080 ∧
    claimOrderUrlExtract ("r360_1080/720p".toList) = some 720 ∧
    claimOrderUrlExtract ("r360_1080/720p".toList) ≠
      extract_resolution_from_url ("r360_1080/720p".toList) ∧
    extract_resolution_from_url ("_123_".toList) = none := by decide

/-- C3 (amended): `extract_resolution_from_url` applies its patterns in the
fixed priority order (1) the CDN-style marker `r<digits>_<digits>` capturing
the second digit group, (2) digits immediately followed by `p`, (3) a 3–4
digit run preceded by `/` and followed by `/`, `_` or `.`; it returns the
first captured integer in that order (with a capture that overflows `u32`
falling through to the next pattern), else none. -/
theorem c3_url_pattern_priority (u : Str) :
    (∀ n, (scanRCapture u).bind parseU32 = some n →
       extract_resolution_from_url u = some n) ∧
    ((scanRCapture u).bind parseU32 = none → ∀ n,
       (scanPCapture u).bind parseU32 = some n →
       extract_resolution_from_url u = some n) ∧
    ((scanRCapture u).bind parseU32 = none →
       (scanPCapture u).bind parseU32 = none →
       extract_resolution_from_url u = (scanSlashCapture u).bind parseU32) ∧
    (∀ cap, scanRCapture u = some cap → ∃ l₁ run l₂,
       u = l₁ ++ 'r' :: run ++ '_' :: cap ++ l₂ ∧ run ≠ [] ∧
       (∀ c ∈ run, c.isDigit) ∧ cap ≠ [] ∧ ∀ c ∈ cap, c.isDigit) ∧
    (∀ cap, scanPCapture u = some cap → ∃ l₁ l₂,
       u = l₁ ++ cap ++ 'p' :: l₂ ∧ cap ≠ [] ∧ ∀ c ∈ cap, c.isDigit) ∧
    (∀ cap, scanSlashCapture u = some cap → ∃ l₁ d l₂,
       u = l₁ ++ '/' :: cap ++ d :: l₂ ∧ (cap.length = 3 ∨ cap.length = 4) ∧
       (∀ c ∈ cap, c.isDigit) ∧ isDelim d) := by
  refine ⟨?_, ?_, ?_, fun cap h => scanRCapture_sound h,
    fun cap h => scanPCapture_sound h, fun cap h => scanSlashCapture_sound h⟩
  · intro n h
    simp only [extract_resolution_from_url, h]
  · intro h n h2
    simp only [extract_resolution_from_url, h, h2]
  · intro h h2
    simp only [extract_resolution_from_url, h, h2]

/-- C3 witness: each priority tier of `c3_url_pattern_priority` instantiated
on a concrete URL. -/
theorem c3_url_pattern_witness :
    extract_resolution_from_url ("r360_1080/720p".toList) = some 1080 ∧
    extract_resolution_from_url ("x720p".toList) = some 720 ∧
    extract_resolution_from_url ("a/360_b".toList) = some 360 :=
  ⟨(c3_url_pattern_priority _).1 1080 (by decide),
   (c3_url_pattern_priority _).2.1 (by decide) 720 (by decide),
   ((c3_url_pattern_priority _).2.2.1 (by decide) (by decide)).trans (by decide)⟩

/-- C4: whenever some source's non-empty label contains the preference as a
substring, `select_best_stream` returns the first such source in input order,
for every CLI quality argument; the matched label is present and non-empty. -/
theorem c4_label_match_first (s : List Source) (pref : Str) (cliArg : Option Str)
    (v : Source) (h : s.find? (labelMatch pref) = some v) :
    select_best_stream s pref cliArg = some v ∧
      ∃ lbl, v.label = some lbl ∧ lbl ≠ [] ∧ pref <:+: lbl := by
  constructor
  · have hie : s.isEmpty = false := by
      cases s with
      | nil => cases h
      | cons a l => rfl
    simp [select_best_stream, hie, h]
  · have hm := List.find?_some h
    unfold labelMatch at hm
    cases hl : v.label with
    | none => rw [hl] at hm; cases hm
    | some lbl =>
      rw [hl] at hm
      simp only [Bool.and_eq_true, Bool.not_eq_true', decide_eq_true_eq] at hm
      refine ⟨lbl, rfl, ?_, hm.2⟩
      intro he
      subst he
      simp at hm

/-- C4 witness: preference "720p" picks the middle variant of the example list
even though a later variant has a higher resolution. -/
theorem c4_label_match_witness :
    select_best_stream exampleP ("720p".toList) none = some srcP720 ∧
      ∃ lbl, srcP720.label = some lbl ∧ lbl ≠ [] ∧ ("720p".toList) <:+: lbl :=
  c4_label_match_first exampleP ("720p".toList) none srcP720 (by decide)

/-- C8: on an empty source list, selection returns `none` for every preference
and CLI quality argument, and the caller's download branch reports "no
suitable stream" instead of downloading. -/
theorem c8_empty_sources (pref : Str) (cliArg : Option Str) :
    select_best_stream [] pref cliArg = none ∧
      downloadStep [] pref cliArg = .reportNoStream := by
  constructor <;> rfl

/-- C9 counterexample: "4294967296p" matches `(\d+)p` with captured integer
4294967296 = 2^32, but `extract_resolution` returns `none` (the capture does
not fit in `u32`), not the captured integer. -/
theorem c9_extract_counterexample :
    scanPCapture ("4294967296p".toList) = some ("4294967296".toList) ∧
    digitsToNat ("4294967296".toList) = 4294967296 ∧
    extract_resolution ("4294967296p".toList) = none := by decide

/-- C9 (amended): for every label matching `(\d+)p` whose captured integer
fits in `u32`, `extract_resolution` returns exactly that integer; for every
string with no digit immediately followed by `p`, it returns `none`. -/
theorem c9_extract_resolution_spec :
    (∀ l cap, scanPCapture l = some cap → digitsToNat cap < 4294967296 →
       extract_resolution l = some (digitsToNat cap)) ∧
    (∀ l : Str, (∀ (l₁ : Str) (c : Char) (l₂ : Str),
         l = l₁ ++ c :: 'p' :: l₂ → c.isDigit = false) →
       extract_resolution l = none) := by
  constructor
  · intro l cap h hlt
    obtain ⟨l₁, l₂, _, hne, hdig⟩ := scanPCapture_sound h
    have hne2 : cap.isEmpty = false := by
      cases cap with
      | nil => exact absurd rfl hne
      | cons a t => rfl
    have hall : cap.all Char.isDigit = true :=
      List.all_eq_true.mpr fun x hx => hdig x hx
    unfold extract_resolution
    rw [h]
    show parseU32 cap = some (digitsToNat cap)
    simp [parseU32, hne2, hall, hlt]
  · intro l hno
    cases h : scanPCapture l with
    | none =>
      unfold extract_resolution
      rw [h]
      rfl
    | some cap =>
      exfalso
      obtain ⟨l₁, l₂, heq, hne, hdig⟩ := scanPCapture_sound h
      rcases List.eq_nil_or_concat' cap with rfl | ⟨ys, y, rfl⟩
      · exact hne rfl
      have hd : y.isDigit := hdig y (by simp)
      have heq2 : l = (l₁ ++ ys) ++ y :: 'p' :: l₂ := by
        rw [heq]
        simp [List.append_assoc]
      have hf := hno (l₁ ++ ys) y l₂ heq2
      rw [hf] at hd
      cases hd

/-- C9 witness: a matching label and a non-matching label, via
`c9_extract_resolution_spec`. -/
theorem c9_extract_witness :
    extract_resolution ("720p HD".toList) = some 720 ∧
    extract_resolution ("abc".toList) = none := by
  constructor
  · exact (c9_extract_resolution_spec.1 ("720p HD".toList) ("720".toList)
      (by decide) (by decide)).trans (by decide)
  · refine c9_extract_resolution_spec.2 ("abc".toList) ?_
    intro l₁ c l₂ hcontra
    exfalso
    have hp : 'p' ∈ ("abc".toList) := by
      rw [hcontra]
      simp
    exact absurd hp (by decide)

/-- C10: every character of `sanitize_filename`'s output is alphanumeric, a
hyphen or an underscore; in particular no space, path separator or dot
survives. -/
theorem c10_sanitize_filename_chars (name : Str) (c : Char)
    (h : c ∈ sanitize_filename name) :
    (c.isAlphanum = true ∨ c = '-' ∨ c = '_') ∧ c ≠ ' ' ∧ c ≠ '/' ∧ c ≠ '.' := by
  unfold sanitize_filename at h
  obtain ⟨a, ha, rfl⟩ := List.mem_map.mp h
  have hp := (List.mem_filter.mp ha).2
  simp only [Bool.or_eq_true, decide_eq_true_eq] at hp
  by_cases hsp : a = ' '
  · subst hsp
    rw [if_pos rfl]
    exact ⟨Or.inr (Or.inr rfl), by decide, by decide, by decide⟩
  · rw [if_neg hsp]
    rcases hp with ((hp | hp) | hp) | hp
    · refine ⟨Or.inl hp, hsp, ?_, ?_⟩
      · intro he
        subst he
        exact absurd hp (by decide)
      · intro he
        subst he
        exact absurd hp (by decide)
    · exact absurd hp hsp
    · subst hp
      exact ⟨Or.inr (Or.inl rfl), by decide, by decide, by decide⟩
    · subst hp
      exact ⟨Or.inr (Or.inr rfl), by decide, by decide, by decide⟩

/-- C10 witness: the underscore produced from the space in "a b.c". -/
theorem c10_sanitize_witness :
    ('_'.isAlphanum = true ∨ '_' = '-' ∨ '_' = '_') ∧
      '_' ≠ ' ' ∧ '_' ≠ '/' ∧ '_' ≠ '.' :=
  c10_sanitize_filename_chars ("a b.c".toList) '_' (by decide)

/-- C1 counterexample: on the spec's example list (no variant kind given),
neither "max" nor "high" yields the 1080p variant with url "c": "max" is not a
sentinel in the code (first-source fallback, url "a"), and "high" restricts to
primary variants unconditionally — with no primary variant it returns `none`
instead of considering all variants.  Two further corners: a lone primary
variant with resolution 0 is not returned by "high" (strict `>` against the
initial 0), and a lone primary variant at `u32::MAX` is not returned by "low"
(strict `<` against the initial `u32::MAX`). -/
theorem c1_sentinel_counterexample :
    select_best_stream exampleU ("max".toList) (some ("max".toList)) =
      some srcU480 ∧
    srcU480.url = "a".toList ∧ srcU1080.url = "c".toList ∧
    select_best_stream exampleU ("high".toList) (some ("high".toList)) = none ∧
    select_best_stream [srcP0] ("high".toList) (some ("high".toList)) = none ∧
    resolutionOf srcP0 = some 0 ∧ isPrimary srcP0 = true ∧
    select_best_stream [srcPMax] ("low".toList) (some ("low".toList)) = none ∧
    resolutionOf srcPMax = some 4294967295 ∧ isPrimary srcPMax = true := by
  decide

/-- C1 (amended): when no non-empty label contains the preference, selection
with the "high" CLI sentinel searches the variants of primary kind only (there
is no all-variants fallback): if some primary variant has an extractable
resolution above 0, it returns the first primary variant carrying the maximal
resolution of the label→URL→asset-key cascade; symmetrically "low" returns the
first primary variant carrying the minimal resolution when some primary
variant has a resolution below `u32::MAX`. -/
theorem c1_sentinel_primary_extremes (sources : List Source) (pref : Str)
    (hnm : ∀ v ∈ sources, labelMatch pref v = false) :
    ((∃ v ∈ sources.filter isPrimary, ∃ r, resolutionOf v = some r ∧ 0 < r) →
      ∃ v r l₁ l₂,
        select_best_stream sources pref (some ("high".toList)) = some v ∧
        resolutionOf v = some r ∧
        sources.filter isPrimary = l₁ ++ v :: l₂ ∧
        (∀ w ∈ sources.filter isPrimary, ∀ rw,
          resolutionOf w = some rw → rw ≤ r) ∧
        (∀ w ∈ l₁, ∀ rw, resolutionOf w = some rw → rw < r)) ∧
    ((∃ v ∈ sources.filter isPrimary, ∃ r, resolutionOf v = some r ∧
        r < 4294967295) →
      ∃ v r l₁ l₂,
        select_best_stream sources pref (some ("low".toList)) = some v ∧
        resolutionOf v = some r ∧
        sources.filter isPrimary = l₁ ++ v :: l₂ ∧
        (∀ w ∈ sources.filter isPrimary, ∀ rw,
          resolutionOf w = some rw → r ≤ rw) ∧
        (∀ w ∈ l₁, ∀ rw, resolutionOf w = some rw → r < rw)) := by
  have hfind : sources.find? (labelMatch pref) = none :=
    List.find?_eq_none.mpr fun x hx => by simp [hnm x hx]
  constructor
  · rintro ⟨v0, hv0, r0, hres0, hr0⟩
    have hmem0 : v0 ∈ sources := (List.mem_filter.mp hv0).1
    have hie : sources.isEmpty = false := by
      cases sources with
      | nil => cases hmem0
      | cons a l => rfl
    have hsel : select_best_stream sources pref (some ("high".toList)) =
        find_highest_quality_source sources true := by
      simp [select_best_stream, hie, hfind]
    cases hrh : runHigh 0 (sources.filter isPrimary) with
    | none =>
      exfalso
      have := runHigh_none hrh v0 hv0 r0 hres0
      omega
    | some p =>
      obtain ⟨v, r⟩ := p
      obtain ⟨hmem, hres, hlt, hbound⟩ := runHigh_some hrh
      obtain ⟨l₁, l₂, hsplit, hfirst⟩ := runHigh_first hrh
      refine ⟨v, r, l₁, l₂, ?_, hres, hsplit, hbound, hfirst⟩
      rw [hsel, find_highest_eq, hrh]
      rfl
  · rintro ⟨v0, hv0, r0, hres0, hr0⟩
    have hmem0 : v0 ∈ sources := (List.mem_filter.mp hv0).1
    have hie : sources.isEmpty = false := by
      cases sources with
      | nil => cases hmem0
      | cons a l => rfl
    have hsel : select_best_stream sources pref (some ("low".toList)) =
        find_lowest_quality_source sources true := by
      simp [select_best_stream, hie, hfind]
    cases hrl : runLow 4294967295 (sources.filter isPrimary) with
    | none =>
      exfalso
      have := runLow_none hrl v0 hv0 r0 hres0
      omega
    | some p =>
      obtain ⟨v, r⟩ := p
      obtain ⟨hmem, hres, hlt, hbound⟩ := runLow_some hrl
      obtain ⟨l₁, l₂, hsplit, hfirst⟩ := runLow_first hrl
      refine ⟨v, r, l₁, l₂, ?_, hres, hsplit, hbound, hfirst⟩
      rw [hsel, find_lowest_eq, hrl]
      rfl

/-- C1 witness: the amended claim instantiated on the spec example list with
all variants primary. -/
theorem c1_sentinel_witness :
    ∃ v r l₁ l₂,
      select_best_stream exampleP ("max".toList) (some ("high".toList)) =
        some v ∧
      resolutionOf v = some r ∧
      exampleP.filter isPrimary = l₁ ++ v :: l₂ ∧
      (∀ w ∈ exampleP.filter isPrimary, ∀ rw,
        resolutionOf w = some rw → rw ≤ r) ∧
      (∀ w ∈ l₁, ∀ rw, resolutionOf w = some rw → rw < r) :=
  (c1_sentinel_primary_extremes exampleP ("max".toList) (by decide)).1
    ⟨srcP480, by decide, 480, by decide, by decide⟩

/-- C2 counterexample: on the spec's no-resolution example `[{label:"", url:"x",
kind:Fallback}, {label:"", url:"y", kind:Primary}]`, selection with the "high"
sentinel returns `none` — it does not fall back to the first primary variant
`y` as the claim requires for every preference including the sentinels. -/
theorem c2_no_signal_counterexample :
    select_best_stream exampleC2 ("high".toList) (some ("high".toList)) =
      none ∧
    exampleC2 = [srcFX, srcPY] ∧ isPrimary srcPY = true ∧
    (∀ v ∈ exampleC2, resolutionOf v = none) := by decide

/-- C2 (amended): on a non-empty list with no extractable resolution and no
label match, selection falls back to the first primary variant, else the first
variant overall — for every preference whose CLI quality argument is neither
the "high" nor the "low" sentinel (with those sentinels it returns `none`). -/
theorem c2_no_signal_fallback (sources : List Source) (pref : Str)
    (cliArg : Option Str) (hne : sources ≠ [])
    (hnr : ∀ v ∈ sources, resolutionOf v = none)
    (hnm : ∀ v ∈ sources, labelMatch pref v = false)
    (hhi : cliArg ≠ some ("high".toList)) (hlo : cliArg ≠ some ("low".toList)) :
    select_best_stream sources pref cliArg =
      (match sources.find? isPrimary with
       | some v => some v
       | none => sources.head?) := by
  have hfind : sources.find? (labelMatch pref) = none :=
    List.find?_eq_none.mpr fun x hx => by simp [hnm x hx]
  have hie : sources.isEmpty = false := by
    cases sources with
    | nil => exact absurd rfl hne
    | cons a l => rfl
  simp only [select_best_stream, hie, Bool.false_eq_true, if_false, hfind]
  rw [if_neg (by simpa using hhi), if_neg (by simpa using hlo)]

/-- C2 witness: with the literal preference "max" (not a code sentinel) the
fallback picks the first primary variant `y`. -/
theorem c2_no_signal_witness :
    select_best_stream exampleC2 ("max".toList) (some ("max".toList)) =
      (match exampleC2.find? isPrimary with
       | some v => some v
       | none => exampleC2.head?) :=
  c2_no_signal_fallback exampleC2 ("max".toList) (some ("max".toList))
    (by decide) (by decide) (by decide) (by decide) (by decide)

/-- A listing item carrying only the mandatory `id`. -/
def itemOnlyId : Json := Json.obj [("id".toList, Json.str ("x".toList))]

/-- A listing response whose single item carries only `id`. -/
def respOnlyId : Json := Json.obj [("items".toList, Json.arr [itemOnlyId])]

/-- C5 counterexample: a listing item with the mandatory `id` present but no
`title` fails to decode — `title` is a second mandatory field, so decoding
does not succeed "whenever the mandatory id field is present" — and the
failure aborts the whole response. -/
theorem c5_item_fields_counterexample :
    decodeDatedVideoItem itemOnlyId =
      .error (.missingField ("title".toList)) ∧
    decodeDatedVideosResponse respOnlyId =
      .error (.missingField ("title".toList)) := by
  constructor <;> rfl

/-- C5 (amended): a listing item decodes exactly when both mandatory fields
`id` and `title` are present (as strings); each descriptive field (formatted
date, headline, summary, formatted duration, duration seconds) is
independently optional; a record missing `id` or `title` is a hard parse
failure, and one failing record fails the whole response. -/
theorem c5_item_mandatory_fields :
    (∀ (fs : List (Str × Json)) (idv tv : Str) (df hl sm duf : Option Str)
       (ds : Option Nat),
       getField fs ("id".toList) = some (.str idv) →
       getField fs ("title".toList) = some (.str tv) →
       getField fs ("date_formated".toList) = df.map Json.str →
       getField fs ("headline".toList) = hl.map Json.str →
       getField fs ("summary".toList) = sm.map Json.str →
       getField fs ("duration_formatted".toList) = duf.map Json.str →
       getField fs ("duration_seconds".toList) =
         (ds.map fun m => Json.num (m : Int)) →
       (∀ m, ds = some m → m < 4294967296) →
       getField fs ("custom_id".toList) = none →
       getField fs ("resource_id".toList) = none →
       getField fs ("video_url".toList) = none →
       decodeDatedVideoItem (Json.obj fs) =
         .ok ⟨idv, tv, df, hl, sm, duf, ds, none, none, none⟩) ∧
    (∀ fs, getField fs ("id".toList) = none →
       decodeDatedVideoItem (Json.obj fs) =
         .error (.missingField ("id".toList))) ∧
    (∀ fs, getField fs ("title".toList) = none →
       ∃ e, decodeDatedVideoItem (Json.obj fs) = .error e) ∧
    (∀ (ofs : List (Str × Json)) (pre post : List Json) (j : Json),
       getField ofs ("items".toList) = some (Json.arr (pre ++ j :: post)) →
       (∃ e, decodeDatedVideoItem j = .error e) →
       ∃ e2, decodeDatedVideosResponse (Json.obj ofs) = .error e2) := by
  refine ⟨?_, ?_, ?_, ?_⟩
  · intro fs idv tv df hl sm duf ds h1 h2 h3 h4 h5 h6 h7 hb h8 h9 h10
    simp only [decodeDatedVideoItem, reqStr_ok h1, reqStr_ok h2, optStr_map h3,
      optStr_map h4, optStr_map h5, optStr_map h6, optNat_map h7 hb,
      @optStr_map _ _ none h8, @optStr_map _ _ none h9,
      @optStr_map _ _ none h10, ebind_ok, emap_ok, epure_ok]
  · intro fs h
    simp only [decodeDatedVideoItem, reqStr_missing h, ebind_error]
  · intro fs h
    cases hid : reqStr fs ("id".toList) with
    | error e =>
      exact ⟨e, by simp only [decodeDatedVideoItem, hid, ebind_error]⟩
    | ok i =>
      exact ⟨.missingField ("title".toList),
        by simp only [decodeDatedVideoItem, hid, ebind_ok, reqStr_missing h,
             ebind_error]⟩
  · intro ofs pre post j hitems hj
    obtain ⟨e2, he2⟩ := decodeDatedItems_error pre post hj
    exact ⟨e2, by simp only [decodeDatedVideosResponse, hitems, he2,
      ebind_error]⟩

/-- A concrete listing item with `id`, `title`, `headline`, `duration_seconds`
present and the remaining descriptive fields absent. -/
def itemMixed : Json :=
  Json.obj [("id".toList, Json.str ("x".toList)),
            ("title".toList, Json.str ("t".toList)),
            ("headline".toList, Json.str ("h".toList)),
            ("duration_seconds".toList, Json.num 60)]

/-- C5 witness: the mixed item decodes with the absent fields as `none`. -/
theorem c5_item_fields_witness :
    decodeDatedVideoItem itemMixed =
      .ok ⟨"x".toList, "t".toList, none, some ("h".toList), none, none,
           some 60, none, none, none⟩ :=
  c5_item_mandatory_fields.1 _ ("x".toList) ("t".toList) none
    (some ("h".toList)) none none (some 60) rfl rfl rfl rfl rfl rfl rfl
    (by intro m hm; injection hm with hm; omega) rfl rfl rfl

/-- C6: a session response whose `sources` array contains a record without a
`url` field fails to decode as a whole, with an inspectable
`JsonDeserialization` error — no partial session is produced and the malformed
variant is not dropped. -/
theorem c6_missing_url_fails_session (fs : List (Str × Json))
    (pre post : List Json) (rec : List (Str × Json))
    (hs : getField fs ("sources".toList) =
      some (Json.arr (pre ++ Json.obj rec :: post)))
    (hu : getField rec ("url".toList) = none) :
    ∃ e, parseVideoSessionBody (Json.obj fs) =
      .error (.jsonDeserialization e) := by
  obtain ⟨e2, he2⟩ := decodeSources_error pre post
    (decodeSource_error_of_no_url hu)
  cases hse : defStr fs ("session".toList) with
  | error e =>
    exact ⟨e, by simp only [parseVideoSessionBody, decodeVideoSession, hse,
      ebind_error, Except.mapError]⟩
  | ok se =>
    exact ⟨e2, by simp only [parseVideoSessionBody, decodeVideoSession, hse,
      ebind_ok, hs, he2, ebind_error, Except.mapError]⟩

/-- A session body whose only source record lacks `url`. -/
def sessNoUrl : Json :=
  Json.obj [("session".toList, Json.str ("s".toList)),
            ("sources".toList,
             Json.arr [Json.obj [("type".toList,
               Json.str ("primary".toList))]])]

/-- C6 witness: the concrete session with a url-less source fails to parse. -/
theorem c6_missing_url_witness :
    ∃ e, parseVideoSessionBody sessNoUrl =
      .error (.jsonDeserialization e) :=
  c6_missing_url_fails_session _ [] [] _ rfl rfl

/-- C7: when the nested path `data.title.structure.excerpts.resources` is
absent from the GraphQL envelope, listing parsing returns the dedicated
"Missing resources" error and never an (empty or other) item list. -/
theorem c7_missing_graphql_path (g : Json)
    (h : extractResources g = none) :
    parseVideosByDate g = .error (.globoApi missingResourcesMsg) ∧
      ∀ resp, parseVideosByDate g ≠ .ok resp := by
  have hp : parseVideosByDate g = .error (.globoApi missingResourcesMsg) := by
    simp only [parseVideosByDate, h]
  exact ⟨hp, fun resp hok => by rw [hp] at hok; cases hok⟩

/-- A GraphQL envelope with a `data` field but no nested path below it. -/
def gNoPath : Json := Json.obj [("data".toList, Json.null)]

/-- C7 witness: the concrete envelope yields the "Missing resources" error. -/
theorem c7_missing_graphql_witness :
    parseVideosByDate gNoPath = .error (.globoApi missingResourcesMsg) :=
  (c7_missing_graphql_path gNoPath rfl).1
